import Mathlib

/-!
Verification development for the integration-branch consolidation tool.

The repository contains several near-duplicate Go implementations of the same
design.  We embed each variant's functions in a namespace named after where the
variant lives in the sources:

* `MainGo`  — the first variant in `main.go` (lines 1-252): local-git execution
  (`git checkout` / `git merge` / `os.WriteFile`).  `src/unnamed/part_001` is a
  near-identical copy of this variant (it adds an `isBranchExists` gate, which
  is embedded in `Part001`).
* `Part000` — `src/unnamed/part_000` (≈ the second variant in `main.go`,
  lines 253-516): GitHub-API execution, tree-composition commits, `UpdateRef`
  with `force=true`.
* `Part001` — `src/unnamed/part_001`: the local-git variant's qualification
  functions (`hasAllLabels`, `isBranchExists`, `fetchQualifiedPRs`).
* `MainGoC` — the third variant in `main.go` (lines 517-892): GitHub-API merge
  via `PullRequests.Merge`, per-merge ledger updates (`updateMergeHistory`),
  the four-field `MergeRecord` carrying a `target` field.

Go strings are embedded as `List Char` (named `Str`); `strings.ToLower` /
`strings.TrimSpace` are embedded for the ASCII fragment, which is what every
label example in the sources exercises.  Calls to external processes and to
the GitHub REST API are embedded as explicit state (a ref store / local git
state) plus per-pull-request outcome flags (`fetchFails`, `listCommitsFails`,
`mergeFails`, `mergeableState`) that model the possible results of those
I/O calls.  Wall-clock time (`time.Now().UTC()`) is modelled by an external
clock `Nat → Str` rendering successive instants; no claim depends on the
actual RFC3339 text.
-/

/-! ### Go strings -/

/-- Go strings, embedded character by character. -/
abbrev Str := List Char

/-- ASCII fragment of Go's `unicode.IsSpace`, used by `strings.TrimSpace`. -/
def isSpaceChar (c : Char) : Bool :=
  c = ' ' || c = '\t' || c = '\n' || c = '\r' || c = '\x0b' || c = '\x0c'

/-- Go `strings.TrimSpace`: drop leading and trailing whitespace. -/
def trimSpace (s : Str) : Str :=
  ((s.dropWhile isSpaceChar).reverse.dropWhile isSpaceChar).reverse

/-- Go `strings.ToLower` (ASCII fragment; `Char.toLower` lowers `A`-`Z`). -/
def toLowerStr (s : Str) : Str := s.map Char.toLower

/-- The normalization `strings.ToLower(strings.TrimSpace(s))` applied to a
label by the any-of matchers. -/
def normLabel (s : Str) : Str := toLowerStr (trimSpace s)

/-- Go `strings.Split(s, ",")`: note `Split("", ",") = [""]`. -/
def splitComma (s : Str) : List Str :=
  s.foldr
    (fun c acc =>
      if c = ',' then [] :: acc
      else
        match acc with
        | [] => [[c]]
        | h :: t => (c :: h) :: t)
    [[]]

/-! ### Shared data model

All variants use `github.PullRequest`; the fields below are the ones the
sources read, plus Boolean outcome flags modelling the external I/O calls
made while processing that pull request. -/

/-- A pull request as observed by the tool, together with the outcomes of the
external calls made for it: `fetchFails` models `git fetch origin pull/N/head`
failing, `listCommitsFails` models `PullRequests.ListCommits` failing,
`mergeFails` models a merge conflict (local `git merge` or the merge API
call failing), `mergeableState` is `pr.GetMergeableState()`. -/
structure PullRequest where
  number : Nat
  title : Str
  labels : List Str
  headRef : Str
  headSHA : Nat
  mergeableState : Str
  commits : List Nat
  fetchFails : Bool
  listCommitsFails : Bool
  mergeFails : Bool
deriving DecidableEq

/-- `MergeRecord` as declared in `main.go` lines 35-39 (and identically in
`part_000` / `part_001`): `{pr, commit, timestamp}` — no target field.
Commit addresses are abstracted to `Nat`; the timestamp is carried as its
rendered string. -/
structure MergeRecord where
  pr : Nat
  commit : Nat
  timestamp : Str
deriving DecidableEq

/-- `RefHistory` (`{"merges": [...]}`) for the three-field record variants. -/
structure RefHistory where
  merges : List MergeRecord
deriving DecidableEq

/-- `MergeRecord` as declared in `main.go` lines 544-550 (third variant):
`{pr, commit, target, timestamp}`. -/
structure MergeRecordC where
  pr : Nat
  commit : Nat
  target : Str
  timestamp : Str
deriving DecidableEq

/-- `RefHistory` for the four-field record variant. -/
structure RefHistoryC where
  merges : List MergeRecordC
deriving DecidableEq

/-- Error outcomes of the embedded operations, following the error sites in
the sources (branch lookup failure, candidate fetch/commit-list failure,
merge conflict, a ref update on a missing ref, and a rejected
non-fast-forward ref update — the "concurrent modification detected"
outcome of a conditional ref update). -/
inductive GErr where
  | branchLookup
  | fetchError
  | mergeConflict
  | refMissing
  | nonFastForward
deriving DecidableEq

/-! ### JSON artifact shape

`encoding/json` serializes struct fields in declaration order; a `nil` slice
serializes as JSON `null` (the record slices in these programs are built by
`append` from a `nil` zero value, so an empty run serializes as `null`). -/

/-- JSON values, as produced by `encoding/json` for these structs. -/
inductive Json where
  | null : Json
  | str : Str → Json
  | num : Nat → Json
  | arr : List Json → Json
  | obj : List (String × Json) → Json

/-- Rendering of an abstract commit address as the hex text Go would have in
the `Commit string` field. -/
def shaStr (n : Nat) : Str := Nat.toDigits 16 n

/-- The top-level keys of a JSON object (empty for non-objects). -/
def jsonKeys : Json → List String
  | .obj fields => fields.map Prod.fst
  | _ => []

/-- `json.Marshal` of the three-field `MergeRecord` (struct field order:
`pr`, `commit`, `timestamp`). -/
def marshalMergeRecord (r : MergeRecord) : Json :=
  .obj [("pr", .num r.pr), ("commit", .str (shaStr r.commit)),
        ("timestamp", .str r.timestamp)]

/-- `json.Marshal` of the four-field `MergeRecord` of the third `main.go`
variant (field order: `pr`, `commit`, `target`, `timestamp`). -/
def marshalMergeRecordC (r : MergeRecordC) : Json :=
  .obj [("pr", .num r.pr), ("commit", .str (shaStr r.commit)),
        ("target", .str r.target), ("timestamp", .str r.timestamp)]

/-- `json.MarshalIndent(RefHistory{...})`: a single-key `{"merges": ...}`
object; a `nil` record slice renders as `null`, a non-empty one as an array. -/
def marshalRefHistory (l : List MergeRecord) : Json :=
  .obj [("merges", match l with
                   | [] => Json.null
                   | xs => Json.arr (xs.map marshalMergeRecord))]

/-- `json.MarshalIndent` for the four-field record history. -/
def marshalRefHistoryC (l : List MergeRecordC) : Json :=
  .obj [("merges", match l with
                   | [] => Json.null
                   | xs => Json.arr (xs.map marshalMergeRecordC))]

deriving instance DecidableEq for Except

/-! ### Configuration -/

/-- `Config` as declared in `main.go` lines 22-29. -/
structure Config where
  githubToken : Str
  owner : Str
  repo : Str
  trunkBranch : Str
  targetBranch : Str
  requiredLabels : List Str
deriving DecidableEq

namespace MainGo

/-- `parseLabels` (`main.go` lines 121-136): split on commas, trim each
piece, drop pieces that trim to empty; empty input yields no labels. -/
def parseLabels (input : Str) : List Str :=
  if input = [] then []
  else
    (splitComma input).filterMap fun l =>
      let trimmed := trimSpace l
      if trimmed = [] then none else some trimmed

/-- `parseConfig` (`main.go` lines 88-119), as a function of the six flag
values.  It rejects an empty token, owner or repo; it performs no check at
all on the labels flag, and defaults the target branch to `pre-<trunk>`. -/
def parseConfig (token owner repo trunk target labels : Str) :
    Except String Config :=
  if token = [] then .error "github_token es requerido"
  else if owner = [] then .error "owner es requerido"
  else if repo = [] then .error "repo es requerido"
  else
    let target' := if target = [] then "pre-".data ++ trunk else target
    .ok ⟨token, owner, repo, trunk, target', parseLabels labels⟩

/-- `hasAnyLabel` (`main.go` lines 165-188): normalize every PR label with
`ToLower ∘ TrimSpace` into a list, then scan the required labels, normalizing
each the same way, for any match. -/
def hasAnyLabel (prLabels required : List Str) : Bool :=
  let prLabelsNormalized := prLabels.map normLabel
  required.any fun req => prLabelsNormalized.any fun p => p == normLabel req

/-- The filtering step of `fetchQualifiedPRs` (`main.go` lines 146-163):
keep, in listing order, the PRs with at least one required label. -/
def fetchQualifiedPRs (prs : List PullRequest) (required : List Str) :
    List PullRequest :=
  prs.filter fun pr => hasAnyLabel pr.labels required

end MainGo

/-! ### Branch stores

Branch pointers are assoc lists from branch name to commit address. -/

/-- Lookup of a branch head by name. -/
def lookupBranch (bs : List (Str × Nat)) (b : Str) : Option Nat :=
  match bs.find? (fun p => p.1 == b) with
  | none => none
  | some p => some p.2

/-- Point a branch at a commit, creating it if absent. -/
def setBranch (bs : List (Str × Nat)) (b : Str) (sha : Nat) :
    List (Str × Nat) :=
  match bs with
  | [] => [(b, sha)]
  | p :: t => if p.1 == b then (b, sha) :: t else p :: setBranch t b sha

/-- Delete a branch (`git branch -D`; no error when absent). -/
def removeBranch (bs : List (Str × Nat)) (b : Str) : List (Str × Nat) :=
  bs.filter fun p => !(p.1 == b)

namespace MainGo

/-- The local working copy: branch refs, the refs `pr-<n>` created by
`git fetch origin pull/<n>/head:pr-<n>`, the checked-out branch, and a
fresh-commit counter. -/
structure LocalGit where
  branches : List (Str × Nat)
  prRefs : List (Nat × Nat)
  current : Str
  nextId : Nat
deriving DecidableEq

/-- The head commit of the checked-out branch (`git rev-parse HEAD`). -/
def headOf (g : LocalGit) : Nat := (lookupBranch g.branches g.current).getD 0

/-- `recreateTargetBranch` (`main.go` lines 190-201): `git checkout trunk`
(fails if the trunk ref is unresolvable), `git branch -D target` (failure
ignored), `git checkout -B target` — the target branch is forced to the
trunk head and becomes current. -/
def recreateTargetBranch (cfg : Config) (g : LocalGit) : Except GErr LocalGit :=
  match lookupBranch g.branches cfg.trunkBranch with
  | none => .error .branchLookup
  | some h =>
      .ok { g with
              branches :=
                setBranch (removeBranch g.branches cfg.targetBranch)
                  cfg.targetBranch h,
              current := cfg.targetBranch }

/-- `processPR` (`main.go` lines 203-222, `part_001` lines 196-215): fetch the
PR head into `pr-<n>` (may fail), then `git merge --no-ff` (may conflict; on
success a new merge commit advances the checked-out branch).  The state is
returned alongside the error since a fetched ref persists even when the
merge then fails. -/
def processPR (pr : PullRequest) (g : LocalGit) : LocalGit × Option GErr :=
  if pr.fetchFails then (g, some .fetchError)
  else
    let g1 := { g with prRefs := (pr.number, pr.headSHA) :: g.prRefs }
    if pr.mergeFails then (g1, some .mergeConflict)
    else
      match lookupBranch g1.branches g1.current with
      | none => (g1, some .branchLookup)
      | some _ =>
          ({ g1 with
               branches := setBranch g1.branches g1.current g1.nextId,
               nextId := g1.nextId + 1 },
           none)

/-- The candidate loop of `main` (`main.go` lines 64-76): on error, log and
`continue`; on success, append a `MergeRecord` whose commit is
`getLatestCommitSHA()` (the new head) and whose timestamp is the current
clock reading. -/
def runPRs (clock : Nat → Str) :
    List PullRequest → LocalGit × List MergeRecord × Nat →
      LocalGit × List MergeRecord × Nat
  | [], st => st
  | pr :: rest, (g, recs, t) =>
      match processPR pr g with
      | (g', some _) => runPRs clock rest (g', recs, t + 1)
      | (g', none) =>
          runPRs clock rest (g', recs ++ [⟨pr.number, headOf g', clock t⟩], t + 1)

/-- `updateRefHistory` (`main.go` lines 224-242): marshal
`RefHistory{Merges: processedPRs}` and `os.WriteFile` it over the ledger
path.  The previously persisted content (first argument) is never read. -/
def updateRefHistory (_prior : Option RefHistory)
    (processedPRs : List MergeRecord) : RefHistory :=
  ⟨processedPRs⟩

/-- `main` (`main.go` lines 41-85): qualify, recreate the target branch
(fatal on failure), run the candidate loop, then write the ledger
unconditionally (followed by a force push, which does not affect the
artifact). -/
def runMain (cfg : Config) (clock : Nat → Str) (ledgerFile : Option RefHistory)
    (g0 : LocalGit) (prs : List PullRequest) :
    Except GErr (LocalGit × RefHistory) :=
  let qualified := fetchQualifiedPRs prs cfg.requiredLabels
  match recreateTargetBranch cfg g0 with
  | .error e => .error e
  | .ok g1 =>
      let (g2, recs, _) := runPRs clock qualified (g1, [], 0)
      .ok (g2, updateRefHistory ledgerFile recs)

end MainGo

namespace Part001

/-- `hasAllLabels` (`part_001` lines 164-176): lowercase (no trimming) the PR
labels into a set, then require every required label, lowercased (again with
no trimming), to be present. -/
def hasAllLabels (prLabels required : List Str) : Bool :=
  let labelSet := prLabels.map toLowerStr
  required.all fun req => labelSet.contains (toLowerStr req)

/-- `isBranchExists` (`part_001` lines 178-181): whether
`git show-ref --verify refs/heads/<branch>` succeeds in the local working
copy, i.e. whether a local branch of that name exists. -/
def isBranchExists (localBranches : List Str) (branch : Str) : Bool :=
  localBranches.contains branch

/-- The filtering step of `fetchQualifiedPRs` (`part_001` lines 145-162):
keep a PR only if it has all required labels AND its head ref exists as a
local branch. -/
def fetchQualifiedPRs (localBranches : List Str) (prs : List PullRequest)
    (required : List Str) : List PullRequest :=
  prs.filter fun pr =>
    hasAllLabels pr.labels required && isBranchExists localBranches pr.headRef

/-- `updateRefHistory` (`part_001` lines 217-234): identical to the `main.go`
variant — `os.WriteFile` of `RefHistory{Merges: merges}`, prior content not
read. -/
def updateRefHistory (_prior : Option RefHistory)
    (merges : List MergeRecord) : RefHistory :=
  ⟨merges⟩

end Part001

namespace Part000

/-- `hasAnyLabel` (`part_000` lines 164-177): build the set of required
labels normalized by `ToLower ∘ TrimSpace`, then look each PR label up after
the same normalization. -/
def hasAnyLabel (prLabels required : List Str) : Bool :=
  let requiredSet := required.map normLabel
  prLabels.any fun prLabel => requiredSet.contains (normLabel prLabel)

/-- `filterPRs` (`part_000` lines 154-162). -/
def filterPRs (prs : List PullRequest) (requiredLabels : List Str) :
    List PullRequest :=
  prs.filter fun pr => hasAnyLabel pr.labels requiredLabels

/-- A commit object in the remote store (only parentage matters to the
claims; tree contents are abstracted into object allocation). -/
structure Commit where
  parents : List Nat
deriving DecidableEq

/-- The remote repository as seen through the GitHub API: branch refs,
commit objects, and a fresh-object counter. -/
structure Store where
  branches : List (Str × Nat)
  commits : List (Nat × Commit)
  nextId : Nat
deriving DecidableEq

/-- Resolve a branch name to its head. -/
def lookupRef (s : Store) (b : Str) : Option Nat := lookupBranch s.branches b

/-- `Git.GetCommit`. -/
def getCommit (s : Store) (sha : Nat) : Option Commit :=
  match s.commits.find? (fun p => p.1 == sha) with
  | none => none
  | some p => some p.2

/-- Point a branch at a commit. -/
def withRef (s : Store) (b : Str) (sha : Nat) : Store :=
  { s with branches := setBranch s.branches b sha }

/-- Allocate a fresh non-commit object (`Git.CreateTree`). -/
def allocObject (s : Store) : Nat × Store :=
  (s.nextId, { s with nextId := s.nextId + 1 })

/-- Allocate a fresh commit object (`Git.CreateCommit`). -/
def allocCommit (s : Store) (parents : List Nat) : Nat × Store :=
  (s.nextId,
   { s with commits := s.commits ++ [(s.nextId, ⟨parents⟩)],
            nextId := s.nextId + 1 })

/-- Fuel-bounded ancestry test on the commit graph: is `sha` equal to or a
descendant of `anc`? -/
def isDescendant (s : Store) : Nat → Nat → Nat → Bool
  | 0, _, _ => false
  | fuel + 1, anc, sha =>
      sha == anc ||
        (match getCommit s sha with
         | none => false
         | some c => c.parents.any fun p => isDescendant s fuel anc p)

/-- `Git.UpdateRef(ref, sha, force)`: fails on a missing ref; with
`force = false` the update is conditional — it is rejected (the concurrent-
modification outcome) unless the new commit descends from the current head;
with `force = true` the ref is overwritten unconditionally. -/
def updateRef (s : Store) (branch : Str) (sha : Nat) (force : Bool) :
    Except GErr Store :=
  match lookupRef s branch with
  | none => .error .refMissing
  | some cur =>
      if force || isDescendant s (s.commits.length + 1) cur sha then
        .ok (withRef s branch sha)
      else .error .nonFastForward

/-- The ref update request `processPR` finally issues. -/
structure RefUpdate where
  ref : Str
  sha : Nat
  force : Bool
deriving DecidableEq

/-- `ensureTargetBranch` (`part_000` lines 123-138): nothing to do when the
target exists; otherwise create it at the trunk head (fatal when the trunk
is unresolvable). -/
def ensureTargetBranch (cfg : Config) (s : Store) : Except GErr Store :=
  match lookupRef s cfg.targetBranch with
  | some _ => .ok s
  | none =>
      match lookupRef s cfg.trunkBranch with
      | none => .error .branchLookup
      | some t => .ok (withRef s cfg.targetBranch t)

/-- The tree-composition steps of `processPR` (`part_000` lines 202-254)
once the base head is known: fail when the PR's commit listing fails or is
empty; otherwise collect one tree entry per resolvable PR commit
(unresolvable ones are skipped by the source), create a tree and a new
commit whose sole parent is the base head, and emit the final
`UpdateRef` request — always with `force = true`. -/
def mergeSteps (cfg : Config) (pr : PullRequest) (s : Store) (base : Nat) :
    Except GErr (RefUpdate × Store) :=
  if pr.listCommitsFails || pr.commits.isEmpty then .error .fetchError
  else
    let _entries := pr.commits.filter fun c => (getCommit s c).isSome
    let (_tree, s1) := allocObject s
    let (newSha, s2) := allocCommit s1 [base]
    .ok (⟨cfg.targetBranch, newSha, true⟩, s2)

/-- `processPR` (`part_000` lines 179-273) up to but excluding the final
`UpdateRef` call: read the target head (`Repositories.GetCommit`), creating
the branch from trunk on a 404, then run the tree-composition steps. -/
def prepareMerge (cfg : Config) (pr : PullRequest) (s : Store) :
    Except GErr (RefUpdate × Store) :=
  match lookupRef s cfg.targetBranch with
  | some base => mergeSteps cfg pr s base
  | none =>
      match lookupRef s cfg.trunkBranch with
      | none => .error .branchLookup
      | some t => mergeSteps cfg pr (withRef s cfg.targetBranch t) t

/-- `processPR` (`part_000` lines 179-273): prepare the merge, then issue
the `UpdateRef` request it produced. -/
def processPR (cfg : Config) (pr : PullRequest) (s : Store) :
    Except GErr (Nat × Store) :=
  match prepareMerge cfg pr s with
  | .error e => .error e
  | .ok (u, s1) =>
      match updateRef s1 u.ref u.sha u.force with
      | .error e => .error e
      | .ok s2 => .ok (u.sha, s2)

/-- The candidate loop of `main` (`part_000` lines 61-75): on error, log and
`continue`; on success, record the new commit with the current clock
reading. -/
def runPRs (cfg : Config) (clock : Nat → Str) :
    List PullRequest → Store × List MergeRecord × Nat →
      Store × List MergeRecord × Nat
  | [], st => st
  | pr :: rest, (s, recs, t) =>
      match processPR cfg pr s with
      | .error _ => runPRs cfg clock rest (s, recs, t + 1)
      | .ok (sha, s') =>
          runPRs cfg clock rest (s', recs ++ [⟨pr.number, sha, clock t⟩], t + 1)

end Part000

namespace MainGoC

/-- The labels step of `parseConfig` (`main.go` line 610):
`strings.Split(labels, ",")` with no cleaning whatsoever — an empty flag
yields `[""]`, a required set containing one empty string. -/
def parseRequiredLabels (labels : Str) : List Str := splitComma labels

/-- `hasRequiredLabels` (`main.go` lines 699-717): lowercase (no trimming)
the PR labels into a set; every required label is trimmed, skipped if the
trim leaves it empty, and otherwise looked up lowercased. -/
def hasRequiredLabels (prLabels required : List Str) : Bool :=
  let presentLabels := prLabels.map toLowerStr
  required.all fun reqLabel =>
    let trimmed := trimSpace reqLabel
    trimmed == [] || presentLabels.contains (toLowerStr trimmed)

/-- The filtering step of `getQualifiedPullRequests` (`main.go`
lines 672-696). -/
def getQualifiedPullRequests (prs : List PullRequest) (required : List Str) :
    List PullRequest :=
  prs.filter fun pr => hasRequiredLabels pr.labels required

/-- `updateMergeHistory` (`main.go` lines 792-822): read the persisted
ledger (absence read as empty), append one record for this merge —
including the target branch name — and re-serialize. -/
def updateMergeHistory (hist : Option RefHistoryC) (prNumber commitSHA : Nat)
    (target ts : Str) : RefHistoryC :=
  ⟨(hist.getD ⟨[]⟩).merges ++ [⟨prNumber, commitSHA, target, ts⟩]⟩

/-- The persisted ledger file plus a count of the ledger writes performed
during the run. -/
structure CState where
  file : Option RefHistoryC
  writeCount : Nat
deriving DecidableEq

/-- `handlePullRequest` (`main.go` lines 720-747): skip a PR whose mergeable
state is not `clean`; skip a PR whose merge fails; otherwise write the
ledger once, appending this merge's record. -/
def handlePullRequest (cfg : Config) (ts : Str) (st : CState)
    (pr : PullRequest) : CState :=
  if !(pr.mergeableState == "clean".data) then st
  else if pr.mergeFails then st
  else
    { file := some (updateMergeHistory st.file pr.number pr.headSHA
                      cfg.targetBranch ts),
      writeCount := st.writeCount + 1 }

/-- The PR loop of `main` (`main.go` lines 575-577). -/
def runPRs (cfg : Config) (clock : Nat → Str) :
    List PullRequest → CState × Nat → CState × Nat
  | [], st => st
  | pr :: rest, (st, t) =>
      runPRs cfg clock rest (handlePullRequest cfg (clock t) st pr, t + 1)

/-- `main` (`main.go` lines 557-578): qualify, then handle each PR; ledger
writes happen only inside `handlePullRequest`, one per successful merge —
there is no end-of-run ledger write. -/
def runMain (cfg : Config) (clock : Nat → Str) (file0 : Option RefHistoryC)
    (prs : List PullRequest) : CState :=
  (runPRs cfg clock (getQualifiedPullRequests prs cfg.requiredLabels)
    (⟨file0, 0⟩, 0)).1

end MainGoC

/-! ### Helper lemmas (shared; none of these is a claim's theorem) -/

/-- Characterization of the `main.go` any-of matcher: a match is a PR label
and a required label agreeing after trimming and lowercasing — both sides
are normalized. -/
lemma hasAnyLabel_iff_mainGo (prs req : List Str) :
    MainGo.hasAnyLabel prs req = true ↔
      ∃ r ∈ req, ∃ p ∈ prs, normLabel p = normLabel r := by
  simp [MainGo.hasAnyLabel, List.any_eq_true, List.mem_map]

/-- Characterization of the `part_000` any-of matcher: same matches, scanned
from the PR-label side. -/
lemma hasAnyLabel_iff_part000 (prs req : List Str) :
    Part000.hasAnyLabel prs req = true ↔
      ∃ r ∈ req, ∃ p ∈ prs, normLabel p = normLabel r := by
  simp [Part000.hasAnyLabel, List.any_eq_true, List.mem_map]
  tauto


/-! ### Claims -/

/-- C1 (counterexample): the ledger write is not append-only.  With a
previously persisted ledger holding the record `{pr 1, commit 10}`, a run
that produced the single record `{pr 2, commit 20}` writes a ledger that
consists of this run's record only — the prior entry is no longer present. -/
theorem claimC1_counterexample :
    MainGo.updateRefHistory (some ⟨[⟨1, 10, []⟩]⟩) [⟨2, 20, []⟩] =
      ⟨[⟨2, 20, []⟩]⟩ ∧
    (⟨1, 10, []⟩ : MergeRecord) ∉
      (MainGo.updateRefHistory (some ⟨[⟨1, 10, []⟩]⟩) [⟨2, 20, []⟩]).merges := by
  decide

/-- C1 (amended): the cited `updateRefHistory` functions (`main.go`
lines 224-242 and `part_001` lines 217-234) never read the previously
persisted ledger: they write a ledger holding exactly this run's records, in
order, whatever was persisted before.  Only `updateMergeHistory` of the
third `main.go` variant reads the prior ledger and appends to it, one
record per merge. -/
theorem claimC1_theorem :
    (∀ (prior : Option RefHistory) (recs : List MergeRecord),
        MainGo.updateRefHistory prior recs = ⟨recs⟩) ∧
    (∀ (prior : Option RefHistory) (recs : List MergeRecord),
        Part001.updateRefHistory prior recs = ⟨recs⟩) ∧
    (∀ (hist : Option RefHistoryC) (n sha : Nat) (tgt ts : Str),
        (MainGoC.updateMergeHistory hist n sha tgt ts).merges =
          (hist.getD ⟨[]⟩).merges ++ [⟨n, sha, tgt, ts⟩]) :=
  ⟨fun _ _ => rfl, fun _ _ => rfl, fun _ _ _ _ _ => rfl⟩

/-- C2 (counterexample): a configuration with a valid token, owner and repo
but an empty labels flag — an empty required-label rule — is accepted by
`parseConfig`; no `ConfigurationError` (indeed no error at all) is raised,
and the resulting configuration carries an empty required-label set. -/
theorem claimC2_counterexample :
    MainGo.parseConfig "t".data "o".data "r".data "main".data [] [] =
      .ok ⟨"t".data, "o".data, "r".data, "main".data, "pre-main".data, []⟩ := by
  decide

/-- C2 (amended): `parseConfig` validates only the token, owner and repo;
an empty labels flag yields a successful parse with an empty required-label
set, and the run proceeds to qualification — where the any-of filter
qualifies no candidate under the empty rule (rather than merging
everything). -/
theorem claimC2_theorem :
    (∀ token owner repo trunk target : Str,
        token ≠ [] → owner ≠ [] → repo ≠ [] →
        ∃ cfg, MainGo.parseConfig token owner repo trunk target [] = .ok cfg ∧
          cfg.requiredLabels = []) ∧
    (∀ prs : List PullRequest, MainGo.fetchQualifiedPRs prs [] = []) := by
  constructor
  · intro token owner repo trunk target h1 h2 h3
    refine ⟨⟨token, owner, repo, trunk,
        (if target = [] then "pre-".data ++ trunk else target),
        MainGo.parseLabels []⟩, ?_, ?_⟩
    · unfold MainGo.parseConfig
      rw [if_neg h1, if_neg h2, if_neg h3]
    · rfl
  · intro prs
    simp [MainGo.fetchQualifiedPRs, MainGo.hasAnyLabel]

/-- C2 (witness). -/
theorem claimC2_witness :
    (∃ cfg, MainGo.parseConfig "tok".data "own".data "rep".data "main".data
        [] [] = .ok cfg ∧ cfg.requiredLabels = []) ∧
    MainGo.fetchQualifiedPRs
      [⟨1, [], ["ready".data], "b".data, 5, [], [], false, false, false⟩] [] =
      [] :=
  ⟨claimC2_theorem.1 "tok".data "own".data "rep".data "main".data []
      (by decide) (by decide) (by decide),
   claimC2_theorem.2 _⟩

/-- C7 (counterexample): the `MergeRecord` declared in `main.go`
lines 35-39 (the one written by the cited `updateRefHistory`) serializes
with keys `pr`, `commit`, `timestamp` only — no `target` field. -/
theorem claimC7_counterexample :
    jsonKeys (marshalMergeRecord ⟨1, 10, []⟩) = ["pr", "commit", "timestamp"] ∧
    "target" ∉ jsonKeys (marshalMergeRecord ⟨1, 10, []⟩) := by
  decide

/-- C7 (amended): only the third `main.go` variant's record
(lines 544-550) carries a `target` field: its records serialize as
`{"pr", "commit", "target", "timestamp"}`.  The records of the other
variants serialize as `{"pr", "commit", "timestamp"}`.  In every variant the
artifact is a single top-level `{"merges": ...}` object (whose value is
JSON `null` rather than `[]` when the record slice is empty, `nil` slices
being serialized as `null`). -/
theorem claimC7_theorem :
    (∀ r : MergeRecordC,
        jsonKeys (marshalMergeRecordC r) = ["pr", "commit", "target", "timestamp"]) ∧
    (∀ r : MergeRecord,
        jsonKeys (marshalMergeRecord r) = ["pr", "commit", "timestamp"]) ∧
    (∀ l, jsonKeys (marshalRefHistory l) = ["merges"]) ∧
    (∀ l, jsonKeys (marshalRefHistoryC l) = ["merges"]) :=
  ⟨fun _ => rfl, fun _ => rfl, fun _ => rfl, fun _ => rfl⟩

/-- C9 (counterexample): `hasAllLabels` does not return `true` for every
candidate when the required list contains only whitespace strings: for a
candidate with no labels and the required list `[" "]` it returns
`false` (the whitespace entry is compared literally, not skipped). -/
theorem claimC9_counterexample :
    Part001.hasAllLabels [] [" ".data] = false := by
  decide

/-- C9 (amended): with an empty required list both all-of matchers admit
every candidate, and `hasRequiredLabels` also admits every candidate when
every required entry trims to the empty string (such entries are skipped);
but `hasAllLabels` does not skip empty or whitespace-only required entries —
it compares them literally, so a candidate without an identical label is
rejected. -/
theorem claimC9_theorem :
    (∀ (prLabels required : List Str),
        (∀ r ∈ required, trimSpace r = []) →
        MainGoC.hasRequiredLabels prLabels required = true) ∧
    (∀ prLabels, MainGoC.hasRequiredLabels prLabels [] = true) ∧
    (∀ prLabels, Part001.hasAllLabels prLabels [] = true) ∧
    Part001.hasAllLabels [] [[]] = false := by
  refine ⟨?_, fun _ => rfl, fun _ => rfl, by decide⟩
  intro prLabels required h
  simp only [MainGoC.hasRequiredLabels, List.all_eq_true]
  intro r hr
  simp [h r hr]

/-- C9 (witness). -/
theorem claimC9_witness :
    MainGoC.hasRequiredLabels ["x".data] [" ".data, []] = true :=
  claimC9_theorem.1 ["x".data] [" ".data, []] (by decide)

/-- C10: in the `part_001` variant, qualification is label matching AND an
extra admission gate: a pull request is kept exactly when it is in the
listing, has all required labels, and its head ref exists as a local branch
(`git show-ref` succeeds).  In particular a candidate whose head branch is
absent locally is excluded even when its labels satisfy the rule. -/
theorem claimC10_theorem :
    ∀ (localBranches required : List Str) (prs : List PullRequest)
      (pr : PullRequest),
      pr ∈ Part001.fetchQualifiedPRs localBranches prs required ↔
        (pr ∈ prs ∧ Part001.hasAllLabels pr.labels required = true ∧
         Part001.isBranchExists localBranches pr.headRef = true) := by
  intro localBranches required prs pr
  simp [Part001.fetchQualifiedPRs, List.mem_filter, Bool.and_eq_true]

/-- C4 (counterexample): labels differing only in leading/trailing
whitespace are NOT treated as equal by every label-matching function.
Using the spec's own examples: `hasAllLabels` (`part_001` lines 164-176)
rejects a candidate labeled `"Ready"` against the required label
`" ready "`, and `hasRequiredLabels` (`main.go` lines 699-717) rejects a
candidate labeled `" ready "` against the required label `"READY"` —
the candidate side is never trimmed. -/
theorem claimC4_counterexample :
    Part001.hasAllLabels ["Ready".data] [" ready ".data] = false ∧
    MainGoC.hasRequiredLabels [" ready ".data] ["READY".data] = false := by
  decide

/-- C4 (amended): the any-of matchers (`hasAnyLabel` in `main.go` and
`part_000`) lowercase AND whitespace-trim both sides — the two
implementations agree, a match is exactly a pair of labels equal after
`ToLower ∘ TrimSpace`, and `"Ready"` vs `" READY "` match there.  The
all-of matchers lowercase both sides but do not trim the candidate side
(`hasRequiredLabels` trims only the required side, `hasAllLabels` trims
neither), so labels differing only in letter case are treated as equal by
every matcher, but whitespace variants are equal only under the any-of
matchers (and, one-sidedly, on the required side of `hasRequiredLabels`). -/
theorem claimC4_theorem :
    (∀ prs req : List Str,
        MainGo.hasAnyLabel prs req = Part000.hasAnyLabel prs req) ∧
    (∀ prs req : List Str,
        MainGo.hasAnyLabel prs req = true ↔
          ∃ r ∈ req, ∃ p ∈ prs, normLabel p = normLabel r) ∧
    MainGo.hasAnyLabel ["Ready".data] [" READY ".data] = true ∧
    Part001.hasAllLabels ["READY".data] ["ready".data] = true ∧
    MainGoC.hasRequiredLabels ["READY".data] ["  ready ".data] = true := by
  refine ⟨?_, hasAnyLabel_iff_mainGo, by decide, by decide, by decide⟩
  intro prs req
  have h1 := hasAnyLabel_iff_mainGo prs req
  have h2 := hasAnyLabel_iff_part000 prs req
  cases ha : MainGo.hasAnyLabel prs req <;> cases hb : Part000.hasAnyLabel prs req
  · rfl
  · exact absurd (h1.2 (h2.1 hb)) (by simp [ha])
  · exact absurd (h2.2 (h1.1 ha)) (by simp [hb])
  · rfl

/-- C8: any-of qualification is monotone in the required label set — a
candidate qualified under a required set `R` is still qualified after one
more label is appended to `R`, for both implementations of the any-of
filter (`main.go`'s `fetchQualifiedPRs` and `part_000`'s `filterPRs`). -/
theorem claimC8_theorem :
    (∀ (prs : List PullRequest) (R : List Str) (l : Str) (pr : PullRequest),
        pr ∈ MainGo.fetchQualifiedPRs prs R →
        pr ∈ MainGo.fetchQualifiedPRs prs (R ++ [l])) ∧
    (∀ (prs : List PullRequest) (R : List Str) (l : Str) (pr : PullRequest),
        pr ∈ Part000.filterPRs prs R →
        pr ∈ Part000.filterPRs prs (R ++ [l])) := by
  have key : ∀ (labels R : List Str) (l : Str),
      MainGo.hasAnyLabel labels R = true →
      MainGo.hasAnyLabel labels (R ++ [l]) = true := by
    intro labels R l h
    rw [hasAnyLabel_iff_mainGo] at h ⊢
    obtain ⟨r, hr, hp⟩ := h
    exact ⟨r, List.mem_append_left _ hr, hp⟩
  have key0 : ∀ (labels R : List Str) (l : Str),
      Part000.hasAnyLabel labels R = true →
      Part000.hasAnyLabel labels (R ++ [l]) = true := by
    intro labels R l h
    rw [hasAnyLabel_iff_part000] at h ⊢
    obtain ⟨r, hr, hp⟩ := h
    exact ⟨r, List.mem_append_left _ hr, hp⟩
  constructor
  · intro prs R l pr h
    rw [MainGo.fetchQualifiedPRs, List.mem_filter] at h ⊢
    exact ⟨h.1, key _ _ l h.2⟩
  · intro prs R l pr h
    rw [Part000.filterPRs, List.mem_filter] at h ⊢
    exact ⟨h.1, key0 _ _ l h.2⟩

/-- C8 (witness): a concrete candidate qualified under `["ready"]` is still
qualified under `["ready", "urgent"]`, in both implementations. -/
theorem claimC8_witness :
    (⟨1, [], ["ready".data], "b".data, 5, [], [], false, false, false⟩ :
        PullRequest) ∈
      MainGo.fetchQualifiedPRs
        [⟨1, [], ["ready".data], "b".data, 5, [], [], false, false, false⟩]
        ("ready".data :: ["urgent".data]) ∧
    (⟨1, [], ["ready".data], "b".data, 5, [], [], false, false, false⟩ :
        PullRequest) ∈
      Part000.filterPRs
        [⟨1, [], ["ready".data], "b".data, 5, [], [], false, false, false⟩]
        ("ready".data :: ["urgent".data]) := by
  constructor
  · exact claimC8_theorem.1 _ ["ready".data] "urgent".data _ (by decide)
  · exact claimC8_theorem.2 _ ["ready".data] "urgent".data _ (by decide)

/-- Every successful `mergeSteps` emits a `force = true` ref update. -/
lemma mergeSteps_force (cfg : Config) (pr : PullRequest) (s : Part000.Store)
    (base : Nat) (u : Part000.RefUpdate) (s' : Part000.Store)
    (h : Part000.mergeSteps cfg pr s base = .ok (u, s')) : u.force = true := by
  unfold Part000.mergeSteps at h
  split at h
  · exact absurd h (by simp)
  · simp only [Except.ok.injEq, Prod.mk.injEq] at h
    rw [← h.1]

/-- C3 (counterexample): `processPR` read the target branch at head `10` and
prepared a new commit `12` (parent `10`) together with a `force = true`
ref update; meanwhile the branch was externally moved to commit `99`.
Issuing the prepared update against the mutated store nevertheless
succeeds — the branch is rewritten to `12` and the external commit `99` is
silently overwritten; no `ConcurrentModificationError` (nonFastForward)
is surfaced. -/
theorem claimC3_counterexample :
    Part000.prepareMerge ⟨[], [], [], "main".data, "pre-main".data, []⟩
        ⟨7, [], [], [], 0, [], [5], false, false, false⟩
        ⟨[("pre-main".data, 10)], [(10, ⟨[]⟩)], 11⟩ =
      .ok (⟨"pre-main".data, 12, true⟩,
           ⟨[("pre-main".data, 10)], [(10, ⟨[]⟩), (12, ⟨[10]⟩)], 13⟩) ∧
    Part000.updateRef
        ⟨[("pre-main".data, 99)], [(10, ⟨[]⟩), (12, ⟨[10]⟩), (99, ⟨[10]⟩)], 100⟩
        "pre-main".data 12 true =
      .ok ⟨[("pre-main".data, 12)], [(10, ⟨[]⟩), (12, ⟨[10]⟩), (99, ⟨[10]⟩)],
           100⟩ := by
  decide

/-- C3 (amended): the branch pointer is advanced once per accepted candidate
by `Git.UpdateRef` with `force = true` — an unconditional overwrite, not a
compare-and-swap keyed on the previously known head: every update request
`processPR` prepares carries `force = true`, and a forced update on an
existing ref always succeeds, re-pointing the ref whatever its current
head — so a concurrent external mutation of the branch is silently
overwritten rather than detected. -/
theorem claimC3_theorem :
    (∀ (cfg : Config) (pr : PullRequest) (s : Part000.Store)
        (u : Part000.RefUpdate) (s' : Part000.Store),
        Part000.prepareMerge cfg pr s = .ok (u, s') → u.force = true) ∧
    (∀ (s : Part000.Store) (b : Str) (sha cur : Nat),
        Part000.lookupRef s b = some cur →
        Part000.updateRef s b sha true = .ok (Part000.withRef s b sha)) := by
  constructor
  · intro cfg pr s u s' h
    unfold Part000.prepareMerge at h
    cases hT : Part000.lookupRef s cfg.targetBranch with
    | some base =>
        simp only [hT] at h
        exact mergeSteps_force _ _ _ _ _ _ h
    | none =>
        simp only [hT] at h
        cases hK : Part000.lookupRef s cfg.trunkBranch with
        | none =>
            simp only [hK] at h
            exact absurd h (by simp)
        | some t =>
            simp only [hK] at h
            exact mergeSteps_force _ _ _ _ _ _ h
  · intro s b sha cur h
    unfold Part000.updateRef
    rw [h]
    simp

/-- C3 (witness). -/
theorem claimC3_witness :
    (⟨"pre-main".data, 12, true⟩ : Part000.RefUpdate).force = true ∧
    Part000.updateRef ⟨[("pre-main".data, 99)], [(10, ⟨[]⟩)], 50⟩
        "pre-main".data 12 true =
      .ok (Part000.withRef ⟨[("pre-main".data, 99)], [(10, ⟨[]⟩)], 50⟩
            "pre-main".data 12) := by
  constructor
  · exact claimC3_theorem.1 ⟨[], [], [], "main".data, "pre-main".data, []⟩
      ⟨7, [], [], [], 0, [], [5], false, false, false⟩
      ⟨[("pre-main".data, 10)], [(10, ⟨[]⟩)], 11⟩
      ⟨"pre-main".data, 12, true⟩
      ⟨[("pre-main".data, 10)], [(10, ⟨[]⟩), (12, ⟨[10]⟩)], 13⟩ (by decide)
  · exact claimC3_theorem.2 _ _ 12 99 (by decide)

/-- A candidate whose fetch fails or whose merge conflicts leaves the local
branch state untouched (only a fetched `pr-<n>` ref may have been added)
and yields an error. -/
lemma mainGo_processPR_fail (pr : PullRequest) (g : MainGo.LocalGit)
    (hf : pr.fetchFails = true ∨ pr.mergeFails = true) :
    (MainGo.processPR pr g).2.isSome = true ∧
    (MainGo.processPR pr g).1.current = g.current ∧
    (MainGo.processPR pr g).1.branches = g.branches := by
  cases hfe : pr.fetchFails with
  | true => simp [MainGo.processPR, hfe]
  | false =>
    cases hme : pr.mergeFails with
    | true => simp [MainGo.processPR, hfe, hme]
    | false =>
      rw [hfe, hme] at hf
      rcases hf with hf | hf <;> exact absurd hf (by simp)

/-- The `main.go` candidate loop skips a failing candidate: no record is
appended and the loop continues with the remaining candidates. -/
lemma mainGo_runPRs_skip (clock : Nat → Str) (pr : PullRequest)
    (rest : List PullRequest) (g : MainGo.LocalGit) (recs : List MergeRecord)
    (t : Nat) (hf : pr.fetchFails = true ∨ pr.mergeFails = true) :
    MainGo.runPRs clock (pr :: rest) (g, recs, t) =
      MainGo.runPRs clock rest ((MainGo.processPR pr g).1, recs, t + 1) := by
  obtain ⟨hsome, -, -⟩ := mainGo_processPR_fail pr g hf
  rcases hps : MainGo.processPR pr g with ⟨g', oe⟩
  cases oe with
  | none => rw [hps] at hsome; simp at hsome
  | some e => simp only [MainGo.runPRs, hps]

/-- When every candidate fails, the loop produces no records at all. -/
lemma mainGo_runPRs_all_fail (clock : Nat → Str) (prs : List PullRequest) :
    ∀ (g : MainGo.LocalGit) (recs : List MergeRecord) (t : Nat),
      (∀ pr ∈ prs, pr.fetchFails = true ∨ pr.mergeFails = true) →
      (MainGo.runPRs clock prs (g, recs, t)).2.1 = recs := by
  induction prs with
  | nil => intro g recs t _; rfl
  | cons pr rest ih =>
    intro g recs t h
    rw [mainGo_runPRs_skip clock pr rest g recs t (h pr (by simp))]
    exact ih _ recs (t + 1) (fun q hq => h q (by simp [hq]))

/-- When the base branch exists, a candidate with a failing or empty commit
listing makes `part_000`'s `processPR` fail before any ref is touched. -/
lemma part000_processPR_fail (cfg : Config) (pr : PullRequest)
    (s : Part000.Store) (hd : Nat)
    (hb : Part000.lookupRef s cfg.targetBranch = some hd)
    (hf : pr.listCommitsFails = true ∨ pr.commits = []) :
    Part000.processPR cfg pr s = .error .fetchError := by
  have hc : (pr.listCommitsFails || pr.commits.isEmpty) = true := by
    rcases hf with hf | hf <;> simp [hf]
  have hms : Part000.mergeSteps cfg pr s hd = .error .fetchError := by
    unfold Part000.mergeSteps
    rw [if_pos hc]
  have hpm : Part000.prepareMerge cfg pr s = .error .fetchError := by
    unfold Part000.prepareMerge
    simp only [hb]
    exact hms
  unfold Part000.processPR
  rw [hpm]

/-- C5: per-candidate isolation.  In the `part_000` variant, a candidate
whose commit listing fails or is empty yields an error from `processPR`,
the store — in particular the integration branch head — is left exactly as
it was, no `MergeRecord` is contributed, and the loop continues with the
remaining candidates.  In the local-git variant (`main.go`), a candidate
whose fetch fails or whose merge conflicts yields an error, leaves the
checked-out branch and all branch heads unchanged, contributes no record,
and the loop continues with the remaining candidates. -/
theorem claimC5_theorem :
    (∀ (cfg : Config) (clock : Nat → Str) (pr : PullRequest)
        (rest : List PullRequest) (s : Part000.Store)
        (recs : List MergeRecord) (t hd : Nat),
        Part000.lookupRef s cfg.targetBranch = some hd →
        (pr.listCommitsFails = true ∨ pr.commits = []) →
        Part000.processPR cfg pr s = .error .fetchError ∧
        Part000.runPRs cfg clock (pr :: rest) (s, recs, t) =
          Part000.runPRs cfg clock rest (s, recs, t + 1)) ∧
    (∀ (clock : Nat → Str) (pr : PullRequest) (rest : List PullRequest)
        (g : MainGo.LocalGit) (recs : List MergeRecord) (t : Nat),
        (pr.fetchFails = true ∨ pr.mergeFails = true) →
        (MainGo.processPR pr g).2.isSome = true ∧
        (MainGo.processPR pr g).1.current = g.current ∧
        (MainGo.processPR pr g).1.branches = g.branches ∧
        MainGo.runPRs clock (pr :: rest) (g, recs, t) =
          MainGo.runPRs clock rest ((MainGo.processPR pr g).1, recs, t + 1)) := by
  constructor
  · intro cfg clock pr rest s recs t hd hb hf
    have hp := part000_processPR_fail cfg pr s hd hb hf
    refine ⟨hp, ?_⟩
    simp only [Part000.runPRs, hp]
  · intro clock pr rest g recs t hf
    obtain ⟨h1, h2, h3⟩ := mainGo_processPR_fail pr g hf
    exact ⟨h1, h2, h3, mainGo_runPRs_skip clock pr rest g recs t hf⟩

/-- C5 (witness). -/
theorem claimC5_witness :
    (Part000.processPR ⟨[], [], [], "main".data, "pre-main".data, []⟩
        ⟨3, [], [], [], 0, [], [], false, false, false⟩
        ⟨[("pre-main".data, 10)], [(10, ⟨[]⟩)], 11⟩ = .error .fetchError ∧
     Part000.runPRs ⟨[], [], [], "main".data, "pre-main".data, []⟩
        (fun _ => []) [⟨3, [], [], [], 0, [], [], false, false, false⟩]
        (⟨[("pre-main".data, 10)], [(10, ⟨[]⟩)], 11⟩, [], 0) =
      Part000.runPRs ⟨[], [], [], "main".data, "pre-main".data, []⟩
        (fun _ => []) []
        (⟨[("pre-main".data, 10)], [(10, ⟨[]⟩)], 11⟩, [], 0 + 1)) ∧
    ((MainGo.processPR ⟨4, [], [], [], 9, [], [7], true, false, false⟩
        ⟨[("pre-main".data, 10)], [], "pre-main".data, 11⟩).2.isSome = true ∧
     (MainGo.processPR ⟨4, [], [], [], 9, [], [7], true, false, false⟩
        ⟨[("pre-main".data, 10)], [], "pre-main".data, 11⟩).1.current =
       "pre-main".data ∧
     (MainGo.processPR ⟨4, [], [], [], 9, [], [7], true, false, false⟩
        ⟨[("pre-main".data, 10)], [], "pre-main".data, 11⟩).1.branches =
       [("pre-main".data, 10)] ∧
     MainGo.runPRs (fun _ => [])
        [⟨4, [], [], [], 9, [], [7], true, false, false⟩]
        (⟨[("pre-main".data, 10)], [], "pre-main".data, 11⟩, [], 0) =
      MainGo.runPRs (fun _ => []) []
        ((MainGo.processPR ⟨4, [], [], [], 9, [], [7], true, false, false⟩
            ⟨[("pre-main".data, 10)], [], "pre-main".data, 11⟩).1, [], 0 + 1)) :=
  ⟨claimC5_theorem.1 ⟨[], [], [], "main".data, "pre-main".data, []⟩
      (fun _ => []) ⟨3, [], [], [], 0, [], [], false, false, false⟩ []
      ⟨[("pre-main".data, 10)], [(10, ⟨[]⟩)], 11⟩ [] 0 10 (by decide)
      (Or.inr rfl),
   claimC5_theorem.2 (fun _ => [])
      ⟨4, [], [], [], 9, [], [7], true, false, false⟩ []
      ⟨[("pre-main".data, 10)], [], "pre-main".data, 11⟩ [] 0 (Or.inl rfl)⟩

/-- `recreateTargetBranch` succeeds whenever the trunk ref resolves. -/
lemma mainGo_recreate_ok (cfg : Config) (g0 : MainGo.LocalGit) (hd : Nat)
    (hb : lookupBranch g0.branches cfg.trunkBranch = some hd) :
    MainGo.recreateTargetBranch cfg g0 =
      .ok { g0 with
              branches :=
                setBranch (removeBranch g0.branches cfg.targetBranch)
                  cfg.targetBranch hd,
              current := cfg.targetBranch } := by
  unfold MainGo.recreateTargetBranch
  rw [hb]

/-- Once branch preparation succeeded, `main` runs the loop and always
performs the end-of-run ledger write with the loop's records. -/
lemma mainGo_runMain_split (cfg : Config) (clock : Nat → Str)
    (fs : Option RefHistory) (g0 g1 : MainGo.LocalGit) (prs : List PullRequest)
    (hrec : MainGo.recreateTargetBranch cfg g0 = .ok g1) :
    MainGo.runMain cfg clock fs g0 prs =
      .ok ((MainGo.runPRs clock (MainGo.fetchQualifiedPRs prs cfg.requiredLabels)
              (g1, [], 0)).1,
           MainGo.updateRefHistory fs
             (MainGo.runPRs clock (MainGo.fetchQualifiedPRs prs cfg.requiredLabels)
               (g1, [], 0)).2.1) := by
  unfold MainGo.runMain
  simp only [hrec]

/-- The third-variant loop leaves the ledger state untouched when no
handled candidate is mergeable. -/
lemma mainGoC_runPRs_skip_all (cfg : Config) (clock : Nat → Str)
    (prs : List PullRequest) :
    ∀ (st : MainGoC.CState) (t : Nat),
      (∀ pr ∈ prs, ¬ pr.mergeableState = "clean".data) →
      (MainGoC.runPRs cfg clock prs (st, t)).1 = st := by
  induction prs with
  | nil => intro st t _; rfl
  | cons pr rest ih =>
    intro st t h
    have hpr : MainGoC.handlePullRequest cfg (clock t) st pr = st := by
      unfold MainGoC.handlePullRequest
      rw [if_pos]
      simp [h pr (by simp)]
    simp only [MainGoC.runPRs, hpr]
    exact ih st (t + 1) (fun q hq => h q (by simp [hq]))

/-- C6 (counterexample): in the third `main.go` variant (lines 557-578), a
run whose single candidate qualifies (the empty labels flag yields the
required set `[""]`, which admits it) but is not mergeable produces zero
`MergeRecords` — and performs NO ledger write at all: the ledger file stays
absent and the write count is zero, so a no-op run leaves no persisted
trace. -/
theorem claimC6_counterexample :
    MainGoC.runMain ⟨[], [], [], "main".data, "pre-main".data, [[]]⟩
      (fun _ => []) none
      [⟨1, [], ["x".data], "b".data, 5, "dirty".data, [], false, false, false⟩] =
      ⟨none, 0⟩ := by
  decide

/-- C6 (amended): in the variants with a single end-of-run ledger write
(`main.go` lines 64-84, and identically `part_000`/`part_001`), the ledger
is written unconditionally once the run reaches the loop — in particular a
run all of whose candidates fail still writes a ledger with zero records.
In the third `main.go` variant (lines 557-578) the ledger is written once
per successful merge inside `handlePullRequest`, so a run with zero
successful merges performs zero ledger writes and leaves the persisted
ledger exactly as it was. -/
theorem claimC6_theorem :
    (∀ (cfg : Config) (clock : Nat → Str) (fs : Option RefHistory)
        (g0 : MainGo.LocalGit) (prs : List PullRequest) (hd : Nat),
        lookupBranch g0.branches cfg.trunkBranch = some hd →
        ∃ g recs, MainGo.runMain cfg clock fs g0 prs =
          .ok (g, MainGo.updateRefHistory fs recs)) ∧
    (∀ (cfg : Config) (clock : Nat → Str) (fs : Option RefHistory)
        (g0 : MainGo.LocalGit) (prs : List PullRequest) (hd : Nat),
        lookupBranch g0.branches cfg.trunkBranch = some hd →
        (∀ pr ∈ prs, pr.fetchFails = true ∨ pr.mergeFails = true) →
        ∃ g, MainGo.runMain cfg clock fs g0 prs = .ok (g, ⟨[]⟩)) ∧
    (∀ (cfg : Config) (clock : Nat → Str) (fs : Option RefHistoryC)
        (prs : List PullRequest),
        (∀ pr ∈ prs, ¬ pr.mergeableState = "clean".data) →
        (MainGoC.runMain cfg clock fs prs).writeCount = 0 ∧
        (MainGoC.runMain cfg clock fs prs).file = fs) := by
  refine ⟨?_, ?_, ?_⟩
  · intro cfg clock fs g0 prs hd hb
    exact ⟨_, _, mainGo_runMain_split cfg clock fs g0 _ prs
      (mainGo_recreate_ok cfg g0 hd hb)⟩
  · intro cfg clock fs g0 prs hd hb hall
    have hx := mainGo_runMain_split cfg clock fs g0 _ prs
      (mainGo_recreate_ok cfg g0 hd hb)
    have hy := mainGo_runPRs_all_fail clock
      (MainGo.fetchQualifiedPRs prs cfg.requiredLabels)
      { g0 with
          branches :=
            setBranch (removeBranch g0.branches cfg.targetBranch)
              cfg.targetBranch hd,
          current := cfg.targetBranch } [] 0
      (fun q hq => hall q (List.mem_filter.1 hq).1)
    refine ⟨(MainGo.runPRs clock
        (MainGo.fetchQualifiedPRs prs cfg.requiredLabels)
        ({ g0 with
             branches :=
               setBranch (removeBranch g0.branches cfg.targetBranch)
                 cfg.targetBranch hd,
             current := cfg.targetBranch }, [], 0)).1, ?_⟩
    rw [hx, hy]
    rfl
  · intro cfg clock fs prs h
    have hq : ∀ pr ∈ MainGoC.getQualifiedPullRequests prs cfg.requiredLabels,
        ¬ pr.mergeableState = "clean".data :=
      fun q hq => h q (List.mem_filter.1 hq).1
    have hz := mainGoC_runPRs_skip_all cfg clock
      (MainGoC.getQualifiedPullRequests prs cfg.requiredLabels) ⟨fs, 0⟩ 0 hq
    unfold MainGoC.runMain
    rw [hz]
    exact ⟨rfl, rfl⟩

/-- C6 (witness). -/
theorem claimC6_witness :
    (∃ g recs,
        MainGo.runMain ⟨[], [], [], "main".data, "pre-main".data, []⟩
          (fun _ => []) (some ⟨[⟨9, 90, []⟩]⟩)
          ⟨[("main".data, 3)], [], "main".data, 11⟩ [] =
          .ok (g, MainGo.updateRefHistory (some ⟨[⟨9, 90, []⟩]⟩) recs)) ∧
    (∃ g,
        MainGo.runMain ⟨[], [], [], "main".data, "pre-main".data,
            ["go".data]⟩ (fun _ => []) none
          ⟨[("main".data, 3)], [], "main".data, 11⟩
          [⟨8, [], ["go".data], "b".data, 5, [], [7], true, false, false⟩] =
          .ok (g, ⟨[]⟩)) ∧
    ((MainGoC.runMain ⟨[], [], [], "main".data, "pre-main".data, [[]]⟩
        (fun _ => []) (some ⟨[]⟩)
        [⟨2, [], [], "b".data, 5, "blocked".data, [], false, false, false⟩]).writeCount
        = 0 ∧
     (MainGoC.runMain ⟨[], [], [], "main".data, "pre-main".data, [[]]⟩
        (fun _ => []) (some ⟨[]⟩)
        [⟨2, [], [], "b".data, 5, "blocked".data, [], false, false, false⟩]).file
        = some ⟨[]⟩) :=
  ⟨claimC6_theorem.1 ⟨[], [], [], "main".data, "pre-main".data, []⟩
      (fun _ => []) (some ⟨[⟨9, 90, []⟩]⟩)
      ⟨[("main".data, 3)], [], "main".data, 11⟩ [] 3 (by decide),
   claimC6_theorem.2.1 ⟨[], [], [], "main".data, "pre-main".data, ["go".data]⟩
      (fun _ => []) none ⟨[("main".data, 3)], [], "main".data, 11⟩
      [⟨8, [], ["go".data], "b".data, 5, [], [7], true, false, false⟩] 3
      (by decide) (by decide),
   claimC6_theorem.2.2 ⟨[], [], [], "main".data, "pre-main".data, [[]]⟩
      (fun _ => []) (some ⟨[]⟩)
      [⟨2, [], [], "b".data, 5, "blocked".data, [], false, false, false⟩]
      (by decide)⟩
